import Mathlib

/-!
# kmscube front end (`kmscube.c`)

A shallow embedding of `main` of `kmscube.c`: the option tables, the option
loop with its `switch`, and the initialisation chain
DRM → GBM → EGL → `drm->run`.

* C strings are lists of byte values (the bytes before the terminating NUL).
* `getopt_long_only` is the C library's iterator over `argv`; the loop of
  `main` is embedded over the sequence of results it hands back (the value
  returned and `optarg`), up to the first `-1`.
* `init_drm_atomic`, `init_drm_legacy`, `init_gbm`, `init_cube_*` and
  `drm->run` live in other translation units; they are fields of `Env`, and
  `main` records every call it makes to them, in order.
* The two ABI choices the arithmetic of `main` depends on (signedness of plain
  `char`, width of `unsigned long`) are fields of `Abi`.
-/

namespace Kmscube

/-! ## C strings and the ABI -/

/-- Bytes of a C string, without the terminating NUL. -/
abbrev CString := List Nat

/-- The C string of an ASCII literal. -/
def cstr (s : String) : CString := s.toList.map Char.toNat

/-- Implementation-defined choices of the C ABI that `main` is sensitive to. -/
structure Abi where
  /-- whether plain `char` is a signed type (x86) or not (ARM) -/
  char_signed : Bool
  /-- whether `unsigned long` has 64 bits (LP64) or 32 (ILP32) -/
  lp64 : Bool
deriving DecidableEq, Repr

def UINT_MAX : Nat := 2 ^ 32 - 1

def ULLONG_MAX : Nat := 2 ^ 64 - 1

def ULONG_MAX (abi : Abi) : Nat := if abi.lp64 then 2 ^ 64 - 1 else 2 ^ 32 - 1

/-- Conversion of an unsigned value to `unsigned int`. -/
def to_uint (v : Nat) : Nat := v % 2 ^ 32

/-- Conversion of an unsigned value to `int` (two's complement wrap-around, as
GCC and Clang define the out-of-range case). -/
def to_int (v : Nat) : Int :=
  if v % 2 ^ 32 < 2 ^ 31 then (v % 2 ^ 32 : Nat) else (v % 2 ^ 32 : Nat) - 2 ^ 32

/-- The value of a `char` holding byte `b`, converted to `__u32`: a byte of
128 or more is negative where plain `char` is signed, and sign-extends. -/
def char_to_u32 (abi : Abi) (b : Nat) : Nat :=
  if abi.char_signed && decide (128 ≤ b % 256) then b % 256 + (2 ^ 32 - 256) else b % 256

/-! ## C library: `strlen`, `strcmp`, `strtoul`, `strtoull` -/

def strlen (s : CString) : Nat := s.length

/-- Holds when `strcmp (a, b) == 0`. -/
def strcmp_eq (a b : CString) : Bool := decide (a = b)

/-- The C `isspace` in the "C" locale. -/
def isspace (c : Nat) : Bool := c == 32 || (decide (9 ≤ c) && decide (c ≤ 13))

/-- Value of a digit or letter as `strtoul` reads it. -/
def digit_value (c : Nat) : Option Nat :=
  if 48 ≤ c ∧ c ≤ 57 then some (c - 48)
  else if 97 ≤ c ∧ c ≤ 122 then some (c - 87)
  else if 65 ≤ c ∧ c ≤ 90 then some (c - 55)
  else none

/-- Value of the longest prefix of `s` made of digits of `base`, on top of `acc`. -/
def strto_digits (base : Nat) : CString → Nat → Nat
  | [], acc => acc
  | c :: cs, acc =>
    match digit_value c with
    | some d => if d < base then strto_digits base cs (acc * base + d) else acc
    | none => acc

/-- Whether `c` is a hexadecimal digit. -/
def isxdigit (c : Nat) : Bool :=
  match digit_value c with
  | some d => decide (d < 16)
  | none => false

/-- The number a subject sequence denotes when the base is 0: base 16 after
`0x` or `0X` followed by a hexadecimal digit, base 8 after a leading `0`,
base 10 otherwise; the longest run of digits of that base is read. -/
def strto_value : CString → Nat
  | 48 :: x :: h :: r =>
    if (x == 120 || x == 88) && isxdigit h then strto_digits 16 (h :: r) 0
    else strto_digits 8 (48 :: x :: h :: r) 0
  | 48 :: r => strto_digits 8 (48 :: r) 0
  | s => strto_digits 10 s 0

/-- The conversion `strtoul (nptr, NULL, 0)` of ISO C (C99 to C17, "C" locale)
for an unsigned type of maximum `max`: leading white space, an optional sign,
then the number; `max` on overflow, negation in the unsigned type after a
minus sign, `0` when there is no digit. -/
def strtou_base0 (max : Nat) (nptr : CString) : Nat :=
  let s1 := nptr.dropWhile isspace
  let neg := s1.head? == some 45
  let s2 := if s1.head? == some 45 || s1.head? == some 43 then s1.tail else s1
  let v := strto_value s2
  if max < v then max else if neg then (max + 1 - v) % (max + 1) else v

/-- The call `strtoul (nptr, NULL, 0)`. -/
def strtoul (abi : Abi) (nptr : CString) : Nat := strtou_base0 (ULONG_MAX abi) nptr

/-- The call `strtoull (nptr, NULL, 0)`. -/
def strtoull (nptr : CString) : Nat := strtou_base0 ULLONG_MAX nptr

/-! ## libdrm: `fourcc_code` and the two constants `main` starts from -/

/-- The macro `fourcc_code(a, b, c, d)` of `drm_fourcc.h`:
`(__u32)(a) | ((__u32)(b) << 8) | ((__u32)(c) << 16) | ((__u32)(d) << 24)`,
the arguments being `char` values. -/
def fourcc_code (abi : Abi) (a b c d : Nat) : Nat :=
  (char_to_u32 abi a ||| ((char_to_u32 abi b <<< 8) % 2 ^ 32)
    ||| ((char_to_u32 abi c <<< 16) % 2 ^ 32)
    ||| ((char_to_u32 abi d <<< 24) % 2 ^ 32))

/-- The constant `DRM_FORMAT_XRGB8888`, that is `fourcc_code('X', 'R', '2', '4')`. -/
def DRM_FORMAT_XRGB8888 : Nat := 88 + 82 * 2 ^ 8 + 50 * 2 ^ 16 + 52 * 2 ^ 24

/-- The constant `DRM_FORMAT_MOD_LINEAR`. -/
def DRM_FORMAT_MOD_LINEAR : Nat := 0

/-! ## Option tables and usage text -/

/-- The `has_arg` field of `struct option`. -/
inductive HasArg
  | no_argument
  | required_argument
deriving DecidableEq, Repr

/-- An entry of the long-option table (`struct option`; `flag` is `0` in
every entry, so `getopt_long_only` returns `val`). -/
structure LongOpt where
  name : String
  has_arg : HasArg
  val : Char
deriving DecidableEq, Repr

def shortopts : String := "Ac:D:f:gM:m:n:NOp:S:s:V:v:x"

def longopts : List LongOpt :=
  [ ⟨"atomic", .no_argument, 'A'⟩,
    ⟨"count", .required_argument, 'c'⟩,
    ⟨"device", .required_argument, 'D'⟩,
    ⟨"format", .required_argument, 'f'⟩,
    ⟨"gears", .no_argument, 'g'⟩,
    ⟨"mode", .required_argument, 'M'⟩,
    ⟨"modifier", .required_argument, 'm'⟩,
    ⟨"connector_id", .required_argument, 'n'⟩,
    ⟨"offscreen", .no_argument, 'O'⟩,
    ⟨"samples", .required_argument, 's'⟩,
    ⟨"surfaceless", .no_argument, 'x'⟩,
    ⟨"nonblocking", .no_argument, 'N'⟩ ]

/-- The option lines that `usage` prints (the lines that start with an option). -/
def usage_lines : List String :=
  [ "    -A, --atomic             use atomic modesetting and fencing",
    "    -c, --count=N            run for the specified number of frames",
    "    -D, --device=DEVICE      use the given device",
    "    -f, --format=FOURCC      framebuffer format",
    "    -g, --gears              render gears on each cube face",
    "    -M, --mode=MODE          specify mode, one of:",
    "    -m, --modifier=MODIFIER  hardcode the selected modifier",
    "    -n, --connector_id=N     use connector ID N (see drm_info)",
    "    -S, --shadertoy=FILE     use specified shadertoy shader",
    "    -s, --samples=N          use MSAA",
    "    -x, --surfaceless        use surfaceless mode, instead of gbm surface",
    "    -N, --nonblocking        do not poll for input" ]

/-- The mode names that `usage` lists under `-M`. -/
def usage_modes : List String := ["smooth", "rgba", "nv12-2img", "nv12-1img"]

/-- What one option line of the usage text documents: the short letter, the
long name, and whether an argument is shown (`=ARG`). -/
def documented_option (line : String) : Option LongOpt :=
  match line.toList.dropWhile (· == ' ') with
  | '-' :: c :: ',' :: ' ' :: '-' :: '-' :: rest =>
    let name := rest.takeWhile (fun x => x != ' ' && x != '=')
    let after := rest.dropWhile (fun x => x != ' ' && x != '=')
    some ⟨String.mk name, if after.head? == some '=' then .required_argument else .no_argument, c⟩
  | _ => none

/-- The options the usage text documents. -/
def usage_options : List LongOpt := usage_lines.filterMap documented_option

/-- The argument requirement `shortopts` gives to letter `c`, if it has the letter. -/
def shortopt_arg (c : Char) : List Char → Option HasArg
  | [] => none
  | x :: rest =>
    if x = c ∧ c ≠ ':' then
      some (if rest.head? == some ':' then .required_argument else .no_argument)
    else shortopt_arg c rest

/-! ## Collaborators declared in `common.h` and `drm-common.h` -/

/-- The rendering modes of `enum mode` that `main` names. -/
inductive mode
  | SMOOTH
  | RGBA
  | NV12_2IMG
  | NV12_1IMG
  | SHADERTOY
deriving DecidableEq, Repr

/-- Handle to the buffer provider (`const struct gbm *`, non-null). -/
structure gbm where
  ptr : Nat
deriving DecidableEq, Repr

/-- Handle to the render backend (`const struct egl *`, non-null). -/
structure egl where
  ptr : Nat
deriving DecidableEq, Repr

/-- The fields of `struct drm` that `main` reads: the device descriptor, the
size of the chosen display mode, and the strategy's `run` operation (its value
is the status `run` returns). -/
structure drm where
  fd : Int
  hdisplay : Nat
  vdisplay : Nat
  run : gbm → egl → Int

/-- Arguments of `init_drm_atomic` and `init_drm_legacy`. -/
structure DrmArgs where
  device : Option CString
  mode_str : CString
  connector_id : Int
  vrefresh : Nat
  count : Nat
  nonblocking : Bool
deriving DecidableEq, Repr

/-- Arguments of `init_gbm`. -/
structure GbmArgs where
  drm_fd : Int
  w : Nat
  h : Nat
  format : Nat
  modifier : Nat
  surfaceless : Bool
deriving DecidableEq, Repr

/-- The world `main` runs in: the ABI and the functions of the other
translation units, `none` standing for a NULL result. -/
structure Env where
  abi : Abi
  init_drm_atomic : DrmArgs → Option drm
  init_drm_legacy : DrmArgs → Option drm
  init_gbm : GbmArgs → Option gbm
  init_cube_gears : gbm → Int → Option egl
  init_cube_smooth : gbm → Int → Option egl
  init_cube_shadertoy : gbm → Option CString → Int → Option egl
  init_cube_tex : gbm → mode → Int → Option egl

/-- A call that `main` makes outside its own translation unit. -/
inductive Call
  | init_drm_atomic (a : DrmArgs)
  | init_drm_legacy (a : DrmArgs)
  | init_gbm (a : GbmArgs)
  | init_cube_gears (g : gbm) (samples : Int)
  | init_cube_smooth (g : gbm) (samples : Int)
  | init_cube_shadertoy (g : gbm) (file : Option CString) (samples : Int)
  | init_cube_tex (g : gbm) (m : mode) (samples : Int)
  | glClearColor
  | glClear
  | run (d : drm) (g : gbm) (e : egl)

/-! ## `main` -/

/-- One result of `getopt_long_only`: the value returned and `optarg`. -/
structure GetoptResult where
  opt : Char
  optarg : CString
deriving DecidableEq, Repr

/-- The local variables of `main` that the option loop assigns or that are
passed on afterwards. -/
structure Locals where
  device : Option CString
  shadertoy : Option CString
  mode_str : CString
  mode : mode
  format : Nat
  modifier : Nat
  samples : Int
  atomic : Int
  gears : Int
  connector_id : Int
  vrefresh : Nat
  count : Nat
  surfaceless : Bool
  nonblocking : Bool
deriving DecidableEq, Repr

/-- The initial values of the locals of `main`. -/
def Locals.init : Locals where
  device := none
  shadertoy := none
  mode_str := []
  mode := .SMOOTH
  format := DRM_FORMAT_XRGB8888
  modifier := DRM_FORMAT_MOD_LINEAR
  samples := 0
  atomic := 0
  gears := 0
  connector_id := -1
  vrefresh := 0
  count := to_uint UINT_MAX
  surfaceless := false
  nonblocking := false

/-- The body of `case 'f'`: the four characters, blank where `optarg` is
shorter, as bytes. -/
def fourcc_chars (optarg : CString) : Nat × Nat × Nat × Nat :=
  let length : Int := to_int (strlen optarg)
  ( if length > 0 then optarg.getD 0 0 else 32,
    if length > 1 then optarg.getD 1 0 else 32,
    if length > 2 then optarg.getD 2 0 else 32,
    if length > 3 then optarg.getD 3 0 else 32 )

/-- The format `case 'f'` computes from `optarg`. -/
def format_of_arg (abi : Abi) (optarg : CString) : Nat :=
  let f := fourcc_chars optarg
  fourcc_code abi f.1 f.2.1 f.2.2.1 f.2.2.2

/-- The body of `case 'M'`: the mode named by `optarg`, if it is one of the
four names. -/
def mode_of_arg (optarg : CString) : Option mode :=
  if strcmp_eq optarg (cstr "smooth") then some .SMOOTH
  else if strcmp_eq optarg (cstr "rgba") then some .RGBA
  else if strcmp_eq optarg (cstr "nv12-2img") then some .NV12_2IMG
  else if strcmp_eq optarg (cstr "nv12-1img") then some .NV12_1IMG
  else none

/-- The `switch (opt)` of the option loop: the locals after the case, or
`none` when the case returns `-1` from `main`. -/
def option_switch (abi : Abi) (l : Locals) (r : GetoptResult) : Option Locals :=
  if r.opt = 'A' then some { l with atomic := 1 }
  else if r.opt = 'c' then some { l with count := to_uint (strtoul abi r.optarg) }
  else if r.opt = 'D' then some { l with device := some r.optarg }
  else if r.opt = 'f' then some { l with format := format_of_arg abi r.optarg }
  else if r.opt = 'g' then some { l with gears := 1 }
  else if r.opt = 'M' then
    match mode_of_arg r.optarg with
    | some m => some { l with mode := m }
    | none => none
  else if r.opt = 'm' then some { l with modifier := strtoull r.optarg }
  else if r.opt = 'n' then some { l with connector_id := to_int (strtoul abi r.optarg) }
  else if r.opt = 'N' then some { l with nonblocking := true }
  else if r.opt = 'S' then some { l with mode := .SHADERTOY, shadertoy := some r.optarg }
  else if r.opt = 's' then some { l with samples := to_int (strtoul abi r.optarg) }
  else if r.opt = 'x' then some { l with surfaceless := true }
  else none

/-- The `while` loop over the results of `getopt_long_only`: the locals when
the loop runs to its end, `none` when a case returns `-1`. -/
def option_loop (abi : Abi) : List GetoptResult → Locals → Option Locals
  | [], l => some l
  | r :: rs, l =>
    match option_switch abi l r with
    | some l1 => option_loop abi rs l1
    | none => none

/-- The arguments `main` gives to `init_drm_atomic` / `init_drm_legacy`. -/
def drm_args (l : Locals) : DrmArgs :=
  ⟨l.device, l.mode_str, l.connector_id, l.vrefresh, l.count, l.nonblocking⟩

/-- The arguments `main` gives to `init_gbm`. -/
def gbm_args (l : Locals) (d : drm) : GbmArgs :=
  ⟨d.fd, d.hdisplay, d.vdisplay, l.format, l.modifier, l.surfaceless⟩

/-- The DRM initialisation call of `main` (`if (atomic) ... else ...`). -/
def drm_call (l : Locals) : Call :=
  if l.atomic ≠ 0 then .init_drm_atomic (drm_args l) else .init_drm_legacy (drm_args l)

/-- The render-backend initialisation call of `main`
(`if (gears) ... else if (mode == SMOOTH) ... else if (mode == SHADERTOY) ... else ...`). -/
def egl_call (l : Locals) (g : gbm) : Call :=
  if l.gears ≠ 0 then .init_cube_gears g l.samples
  else if l.mode = .SMOOTH then .init_cube_smooth g l.samples
  else if l.mode = .SHADERTOY then .init_cube_shadertoy g l.shadertoy l.samples
  else .init_cube_tex g l.mode l.samples

/-- What the environment returns for an initialisation call (`none` for NULL). -/
def Env.drm_result (env : Env) : Call → Option drm
  | .init_drm_atomic a => env.init_drm_atomic a
  | .init_drm_legacy a => env.init_drm_legacy a
  | _ => none

def Env.gbm_result (env : Env) : Call → Option gbm
  | .init_gbm a => env.init_gbm a
  | _ => none

def Env.egl_result (env : Env) : Call → Option egl
  | .init_cube_gears g s => env.init_cube_gears g s
  | .init_cube_smooth g s => env.init_cube_smooth g s
  | .init_cube_shadertoy g f s => env.init_cube_shadertoy g f s
  | .init_cube_tex g m s => env.init_cube_tex g m s
  | _ => none

/-- The function `main`, over the results `getopt_long_only` yields for its
`argv`: the value `main` returns together with the calls it made, in order.
Text written to standard output is not recorded. -/
def main (env : Env) (rs : List GetoptResult) : Int × List Call :=
  match option_loop env.abi rs Locals.init with
  | none => (-1, [])
  | some l =>
    match env.drm_result (drm_call l) with
    | none => (-1, [drm_call l])
    | some d =>
      match env.init_gbm (gbm_args l d) with
      | none => (-1, [drm_call l, .init_gbm (gbm_args l d)])
      | some g =>
        match env.egl_result (egl_call l g) with
        | none => (-1, [drm_call l, .init_gbm (gbm_args l d), egl_call l g])
        | some e =>
          (d.run g e,
            [drm_call l, .init_gbm (gbm_args l d), egl_call l g,
              .glClearColor, .glClear, .run d g e])

/-! ## Vocabulary of the statements -/

/-- The letters that have a `case` in the `switch` of `main`. -/
def handled_letters : List Char :=
  ['A', 'c', 'D', 'f', 'g', 'M', 'm', 'n', 'N', 'S', 's', 'x']

/-- Whether option letter `c` occurs among the results. -/
def has_opt (c : Char) (rs : List GetoptResult) : Bool := rs.any (fun r => r.opt == c)

/-- The argument of the last occurrence of option letter `c`, if any. -/
def last_arg (c : Char) (rs : List GetoptResult) : Option CString :=
  ((rs.filter (fun r => r.opt == c)).getLast?).map (fun r => r.optarg)

/-- A result that the `switch` handles without leaving `main`: a letter with
a `case`, and for `-M` one of the four mode names. -/
def accepted (r : GetoptResult) : Bool :=
  decide (r.opt ∈ handled_letters) &&
    (r.opt != 'M' || decide (r.optarg ∈ usage_modes.map cstr))

/-- The techniques that the usage text lists under `-M`, by name: `smooth` the
smooth shaded cube, `rgba` the rgba textured cube, `nv12-2img` and `nv12-1img`
the two yuv textured cubes. -/
def usage_techniques : List (String × mode) :=
  [("smooth", .SMOOTH), ("rgba", .RGBA), ("nv12-2img", .NV12_2IMG), ("nv12-1img", .NV12_1IMG)]

/-- The technique that the usage text gives to a mode name, if it lists the name. -/
def technique_named (s : CString) : Option mode :=
  (usage_techniques.find? (fun p => cstr p.1 == s)).map (fun p => p.2)

/-- The technique in force after the options: `SHADERTOY` when the last of the
`-M` and `-S` options is a `-S`, the technique the usage text gives to its
argument when it is a `-M`, `SMOOTH` when there is none. -/
def technique (rs : List GetoptResult) : Option mode :=
  match (rs.filter (fun r => r.opt == 'M' || r.opt == 'S')).getLast? with
  | none => some .SMOOTH
  | some r => if r.opt = 'S' then some .SHADERTOY else technique_named r.optarg

/-- The number given with the last occurrence of letter `c` as `main`
converts it to `int`, `dflt` when the letter is absent. -/
def int_arg (abi : Abi) (c : Char) (dflt : Int) (rs : List GetoptResult) : Int :=
  match last_arg c rs with
  | none => dflt
  | some s => to_int (strtoul abi s)

/-- The frame-count limit after the options. -/
def count_of (abi : Abi) (rs : List GetoptResult) : Nat :=
  match last_arg 'c' rs with
  | none => UINT_MAX
  | some s => strtoul abi s % 2 ^ 32

/-- The pixel format after the options. -/
def format_of (abi : Abi) (rs : List GetoptResult) : Nat :=
  match last_arg 'f' rs with
  | none => DRM_FORMAT_XRGB8888
  | some s => format_of_arg abi s

/-- The buffer modifier after the options. -/
def modifier_of (rs : List GetoptResult) : Nat :=
  match last_arg 'm' rs with
  | none => DRM_FORMAT_MOD_LINEAR
  | some s => strtoull s

/-- The stages of the initialisation chain. -/
inductive Stage
  | drm_init
  | gbm_init
  | egl_init
  | run
deriving DecidableEq, Repr

/-- The stage a call belongs to (`none` for the two GL calls). -/
def Call.stage : Call → Option Stage
  | .init_drm_atomic _ => some .drm_init
  | .init_drm_legacy _ => some .drm_init
  | .init_gbm _ => some .gbm_init
  | .init_cube_gears _ _ => some .egl_init
  | .init_cube_smooth _ _ => some .egl_init
  | .init_cube_shadertoy _ _ _ => some .egl_init
  | .init_cube_tex _ _ _ => some .egl_init
  | .glClearColor => none
  | .glClear => none
  | .run _ _ _ => some .run

/-- Whether the environment answers NULL to an initialisation call. -/
def Env.returns_null (env : Env) : Call → Bool
  | .init_drm_atomic a => (env.init_drm_atomic a).isNone
  | .init_drm_legacy a => (env.init_drm_legacy a).isNone
  | .init_gbm a => (env.init_gbm a).isNone
  | .init_cube_gears g s => (env.init_cube_gears g s).isNone
  | .init_cube_smooth g s => (env.init_cube_smooth g s).isNone
  | .init_cube_shadertoy g f s => (env.init_cube_shadertoy g f s).isNone
  | .init_cube_tex g m s => (env.init_cube_tex g m s).isNone
  | .glClearColor => false
  | .glClear => false
  | .run _ _ _ => false

/-- The decimal numeral of `n`, as a C string. -/
def decimal (n : Nat) : CString :=
  if n = 0 then [48] else (Nat.digits 10 n).reverse.map (fun d => d + 48)

/-- What the locals of `main` hold when the option loop has run over `rs`. -/
structure LoopSpec (abi : Abi) (rs : List GetoptResult) (l : Locals) : Prop where
  device : l.device = last_arg 'D' rs
  shadertoy : l.shadertoy = last_arg 'S' rs
  mode_str : l.mode_str = []
  mode : technique rs = some l.mode
  format : l.format = format_of abi rs
  modifier : l.modifier = modifier_of rs
  samples : l.samples = int_arg abi 's' 0 rs
  atomic : l.atomic = if has_opt 'A' rs then 1 else 0
  gears : l.gears = if has_opt 'g' rs then 1 else 0
  connector_id : l.connector_id = int_arg abi 'n' (-1) rs
  vrefresh : l.vrefresh = 0
  count : l.count = count_of abi rs
  surfaceless : l.surfaceless = has_opt 'x' rs
  nonblocking : l.nonblocking = has_opt 'N' rs

/-! ## Sample environments -/

/-- A display of 1920 by 1080 on descriptor 3 whose `run` returns `status`. -/
def sample_drm (status : Int) : drm := ⟨3, 1920, 1080, fun _ _ => status⟩

/-- An environment in which every initialisation succeeds; the legacy
strategy's `run` returns 0 and the atomic strategy's `run` returns 7. -/
def env_ok (abi : Abi) : Env where
  abi := abi
  init_drm_atomic := fun _ => some (sample_drm 7)
  init_drm_legacy := fun _ => some (sample_drm 0)
  init_gbm := fun _ => some ⟨1⟩
  init_cube_gears := fun _ _ => some ⟨2⟩
  init_cube_smooth := fun _ _ => some ⟨3⟩
  init_cube_shadertoy := fun _ _ _ => some ⟨4⟩
  init_cube_tex := fun _ _ _ => some ⟨5⟩

/-- An environment in which no device can be opened: DRM initialisation fails. -/
def env_no_drm (abi : Abi) : Env :=
  { env_ok abi with init_drm_atomic := fun _ => none, init_drm_legacy := fun _ => none }

/-- The ABI of x86-64 Linux: plain `char` signed, `unsigned long` of 64 bits. -/
def abi_x86_64 : Abi := ⟨true, true⟩

/-- The ABI of 32-bit ARM Linux: plain `char` unsigned, `unsigned long` of 32 bits. -/
def abi_arm32 : Abi := ⟨false, false⟩

/-- Options `-A -c 10`. -/
def sample_atomic : List GetoptResult := [⟨'A', []⟩, ⟨'c', cstr "10"⟩]

/-- Options `-M rgba -S cube.frag -s 4 -M nv12-2img`. -/
def sample_textured : List GetoptResult :=
  [⟨'M', cstr "rgba"⟩, ⟨'S', cstr "cube.frag"⟩, ⟨'s', cstr "4"⟩, ⟨'M', cstr "nv12-2img"⟩]

/-- Options `-A -c 0`. -/
def sample_count_zero : List GetoptResult := [⟨'A', []⟩, ⟨'c', cstr "0"⟩]

/-- Options `-f AR -x`. -/
def sample_format : List GetoptResult := [⟨'f', cstr "AR"⟩, ⟨'x', []⟩]

/-- Options `-g -M fancy`. -/
def sample_bad_mode : List GetoptResult := [⟨'g', []⟩, ⟨'M', cstr "fancy"⟩]

/-- Options `-D /dev/dri/card1 -n 42 -N -M rgba`. -/
def sample_device : List GetoptResult :=
  [⟨'D', cstr "/dev/dri/card1"⟩, ⟨'n', cstr "42"⟩, ⟨'N', []⟩, ⟨'M', cstr "rgba"⟩]

/-! ## The option loop -/

theorem option_loop_append (abi : Abi) (rs1 rs2 : List GetoptResult) (l : Locals) :
    option_loop abi (rs1 ++ rs2) l = (option_loop abi rs1 l).bind (option_loop abi rs2) := by
  induction rs1 generalizing l with
  | nil => rfl
  | cons r rs ih =>
    simp only [List.cons_append, option_loop]
    cases h : option_switch abi l r with
    | none => rfl
    | some l1 => exact ih l1

theorem option_loop_snoc (abi : Abi) (rs : List GetoptResult) (r : GetoptResult) (l : Locals) :
    option_loop abi (rs ++ [r]) l
      = (option_loop abi rs l).bind (fun l1 => option_switch abi l1 r) := by
  rw [option_loop_append]
  congr 1
  funext l1
  simp only [option_loop]
  cases option_switch abi l1 r <;> rfl

theorem mode_of_arg_isSome (s : CString) :
    (mode_of_arg s).isSome = decide (s ∈ usage_modes.map cstr) := by
  unfold mode_of_arg strcmp_eq
  by_cases h1 : s = cstr "smooth"
  · subst h1; decide
  by_cases h2 : s = cstr "rgba"
  · subst h2; decide
  by_cases h3 : s = cstr "nv12-2img"
  · subst h3; decide
  by_cases h4 : s = cstr "nv12-1img"
  · subst h4; decide
  simp [h1, h2, h3, h4, usage_modes]

/-- The `strcmp` chain of `case 'M'` reads the names as the usage text lists them. -/
theorem mode_of_arg_eq_named (s : CString) : mode_of_arg s = technique_named s := by
  unfold mode_of_arg strcmp_eq
  by_cases h1 : s = cstr "smooth"
  · subst h1; rfl
  by_cases h2 : s = cstr "rgba"
  · subst h2; rfl
  by_cases h3 : s = cstr "nv12-2img"
  · subst h3; rfl
  by_cases h4 : s = cstr "nv12-1img"
  · subst h4; rfl
  have e1 : (cstr "smooth" == s) = false := beq_eq_false_iff_ne.mpr (Ne.symm h1)
  have e2 : (cstr "rgba" == s) = false := beq_eq_false_iff_ne.mpr (Ne.symm h2)
  have e3 : (cstr "nv12-2img" == s) = false := beq_eq_false_iff_ne.mpr (Ne.symm h3)
  have e4 : (cstr "nv12-1img" == s) = false := beq_eq_false_iff_ne.mpr (Ne.symm h4)
  simp only [h1, h2, h3, h4, decide_False, Bool.false_eq_true, if_false, technique_named,
    usage_techniques, List.find?, e1, e2, e3, e4, Option.map_none']

theorem option_switch_isSome (abi : Abi) (l : Locals) (r : GetoptResult) :
    (option_switch abi l r).isSome = accepted r := by
  obtain ⟨c, s⟩ := r
  have hm := mode_of_arg_isSome s
  simp only [option_switch, accepted]
  by_cases h1 : c = 'A'
  · subst h1; rfl
  by_cases h2 : c = 'c'
  · subst h2; rfl
  by_cases h3 : c = 'D'
  · subst h3; rfl
  by_cases h4 : c = 'f'
  · subst h4; rfl
  by_cases h5 : c = 'g'
  · subst h5; rfl
  by_cases h6 : c = 'M'
  · subst h6
    rw [if_neg (by decide), if_neg (by decide), if_neg (by decide), if_neg (by decide),
      if_neg (by decide), if_pos rfl]
    cases hmo : mode_of_arg s with
    | none =>
      rw [hmo] at hm
      have h0 : decide (s ∈ usage_modes.map cstr) = false := hm.symm
      rw [h0]; rfl
    | some m =>
      rw [hmo] at hm
      have h0 : decide (s ∈ usage_modes.map cstr) = true := hm.symm
      rw [h0]; rfl
  by_cases h7 : c = 'm'
  · subst h7; rfl
  by_cases h8 : c = 'n'
  · subst h8; rfl
  by_cases h9 : c = 'N'
  · subst h9; rfl
  by_cases h10 : c = 'S'
  · subst h10; rfl
  by_cases h11 : c = 's'
  · subst h11; rfl
  by_cases h12 : c = 'x'
  · subst h12; rfl
  simp [h1, h2, h3, h4, h5, h6, h7, h8, h9, h10, h11, h12, handled_letters]

theorem option_loop_isSome (abi : Abi) (rs : List GetoptResult) (l : Locals) :
    (option_loop abi rs l).isSome = rs.all accepted := by
  induction rs generalizing l with
  | nil => rfl
  | cons r rs ih =>
    have h := option_switch_isSome abi l r
    simp only [option_loop, List.all_cons]
    cases hs : option_switch abi l r with
    | none => simp [hs] at h; simp [← h]
    | some l1 => simp [hs] at h; simp [← h, ih]

theorem has_opt_snoc (c : Char) (rs : List GetoptResult) (r : GetoptResult) :
    has_opt c (rs ++ [r]) = (has_opt c rs || r.opt == c) := by
  simp [has_opt]

theorem last_arg_snoc (c : Char) (rs : List GetoptResult) (r : GetoptResult) :
    last_arg c (rs ++ [r]) = if r.opt = c then some r.optarg else last_arg c rs := by
  unfold last_arg
  rw [List.filter_append]
  by_cases h : r.opt = c
  · simp [h, List.filter_cons]
  · simp [h, List.filter_cons]

theorem technique_snoc (rs : List GetoptResult) (r : GetoptResult) :
    technique (rs ++ [r])
      = if r.opt = 'S' then some .SHADERTOY
        else if r.opt = 'M' then technique_named r.optarg else technique rs := by
  unfold technique
  rw [List.filter_append]
  by_cases h1 : r.opt = 'S'
  · simp [h1, List.filter_cons]
  by_cases h2 : r.opt = 'M'
  · simp [h2, List.filter_cons]
  · simp [h1, h2, List.filter_cons]

theorem loopSpec_init (abi : Abi) : LoopSpec abi [] Locals.init := by
  constructor <;> rfl

theorem loopSpec_step (abi : Abi) (rs : List GetoptResult) (r : GetoptResult) (l1 l : Locals)
    (h1 : LoopSpec abi rs l1) (hs : option_switch abi l1 r = some l) :
    LoopSpec abi (rs ++ [r]) l := by
  obtain ⟨c, s⟩ := r
  obtain ⟨a1, a2, a3, a4, a5, a6, a7, a8, a9, a10, a11, a12, a13, a14⟩ := h1
  simp only [option_switch] at hs
  by_cases c1 : c = 'A'
  · subst c1
    simp at hs
    subst hs
    constructor <;>
      simp [has_opt_snoc, last_arg_snoc, technique_snoc, format_of, modifier_of, int_arg,
        count_of, to_uint, *]
  by_cases c2 : c = 'c'
  · subst c2
    simp at hs
    subst hs
    constructor <;>
      simp [has_opt_snoc, last_arg_snoc, technique_snoc, format_of, modifier_of, int_arg,
        count_of, to_uint, *]
  by_cases c3 : c = 'D'
  · subst c3
    simp at hs
    subst hs
    constructor <;>
      simp [has_opt_snoc, last_arg_snoc, technique_snoc, format_of, modifier_of, int_arg,
        count_of, to_uint, *]
  by_cases c4 : c = 'f'
  · subst c4
    simp at hs
    subst hs
    constructor <;>
      simp [has_opt_snoc, last_arg_snoc, technique_snoc, format_of, modifier_of, int_arg,
        count_of, to_uint, *]
  by_cases c5 : c = 'g'
  · subst c5
    simp at hs
    subst hs
    constructor <;>
      simp [has_opt_snoc, last_arg_snoc, technique_snoc, format_of, modifier_of, int_arg,
        count_of, to_uint, *]
  by_cases c6 : c = 'M'
  · subst c6
    have hn := mode_of_arg_eq_named s
    cases hm : mode_of_arg s with
    | none => simp [hm] at hs
    | some m =>
      simp [hm] at hs
      have hn1 : technique_named s = some m := by rw [← hn, hm]
      clear hn
      subst hs
      constructor <;>
        simp [has_opt_snoc, last_arg_snoc, technique_snoc, format_of, modifier_of,
          int_arg, count_of, to_uint, *]
  by_cases c7 : c = 'm'
  · subst c7
    simp at hs
    subst hs
    constructor <;>
      simp [has_opt_snoc, last_arg_snoc, technique_snoc, format_of, modifier_of, int_arg,
        count_of, to_uint, *]
  by_cases c8 : c = 'n'
  · subst c8
    simp at hs
    subst hs
    constructor <;>
      simp [has_opt_snoc, last_arg_snoc, technique_snoc, format_of, modifier_of, int_arg,
        count_of, to_uint, *]
  by_cases c9 : c = 'N'
  · subst c9
    simp at hs
    subst hs
    constructor <;>
      simp [has_opt_snoc, last_arg_snoc, technique_snoc, format_of, modifier_of, int_arg,
        count_of, to_uint, *]
  by_cases c10 : c = 'S'
  · subst c10
    simp at hs
    subst hs
    constructor <;>
      simp [has_opt_snoc, last_arg_snoc, technique_snoc, format_of, modifier_of, int_arg,
        count_of, to_uint, *]
  by_cases c11 : c = 's'
  · subst c11
    simp at hs
    subst hs
    constructor <;>
      simp [has_opt_snoc, last_arg_snoc, technique_snoc, format_of, modifier_of, int_arg,
        count_of, to_uint, *]
  by_cases c12 : c = 'x'
  · subst c12
    simp at hs
    subst hs
    constructor <;>
      simp [has_opt_snoc, last_arg_snoc, technique_snoc, format_of, modifier_of, int_arg,
        count_of, to_uint, *]
  simp [c1, c2, c3, c4, c5, c6, c7, c8, c9, c10, c11, c12] at hs

theorem option_loop_spec (abi : Abi) (rs : List GetoptResult) (l : Locals)
    (h : option_loop abi rs Locals.init = some l) : LoopSpec abi rs l := by
  induction rs using List.reverseRecOn generalizing l with
  | nil =>
    simp only [option_loop, Option.some.injEq] at h
    subst h
    exact loopSpec_init abi
  | append_singleton rs r ih =>
    rw [option_loop_snoc] at h
    cases h1 : option_loop abi rs Locals.init with
    | none => simp [h1] at h
    | some l1 =>
      rw [h1] at h
      exact loopSpec_step abi rs r l1 l (ih l1 h1) h

theorem option_loop_of_accepted (abi : Abi) (rs : List GetoptResult)
    (h : ∀ r ∈ rs, accepted r = true) :
    ∃ l, option_loop abi rs Locals.init = some l ∧ LoopSpec abi rs l := by
  have h1 : (option_loop abi rs Locals.init).isSome = true := by
    rw [option_loop_isSome, List.all_eq_true]
    exact h
  obtain ⟨l, hl⟩ := Option.isSome_iff_exists.mp h1
  exact ⟨l, hl, option_loop_spec abi rs l hl⟩

theorem option_loop_of_rejected (abi : Abi) (rs : List GetoptResult) (r : GetoptResult)
    (hr : r ∈ rs) (h : accepted r = false) : option_loop abi rs Locals.init = none := by
  have h1 : (option_loop abi rs Locals.init).isSome = false := by
    rw [option_loop_isSome, List.all_eq_false]
    exact ⟨r, hr, by simp [h]⟩
  cases h2 : option_loop abi rs Locals.init with
  | none => rfl
  | some l => simp [h2] at h1

/-! ## The initialisation chain -/

@[simp] theorem stage_drm_call (l : Locals) : (drm_call l).stage = some .drm_init := by
  unfold drm_call
  split <;> rfl

@[simp] theorem stage_egl_call (l : Locals) (g : gbm) :
    (egl_call l g).stage = some .egl_init := by
  unfold egl_call
  split_ifs <;> rfl

@[simp] theorem stage_init_gbm (a : GbmArgs) : (Call.init_gbm a).stage = some .gbm_init := rfl

@[simp] theorem stage_run (d : drm) (g : gbm) (e : egl) :
    (Call.run d g e).stage = some .run := rfl

@[simp] theorem stage_glClearColor : Call.glClearColor.stage = none := rfl

@[simp] theorem stage_glClear : Call.glClear.stage = none := rfl

@[simp] theorem returns_null_init_gbm (env : Env) (a : GbmArgs) :
    env.returns_null (.init_gbm a) = (env.init_gbm a).isNone := rfl

@[simp] theorem returns_null_run (env : Env) (d : drm) (g : gbm) (e : egl) :
    env.returns_null (.run d g e) = false := rfl

@[simp] theorem returns_null_glClearColor (env : Env) :
    env.returns_null .glClearColor = false := rfl

@[simp] theorem returns_null_glClear (env : Env) : env.returns_null .glClear = false := rfl

theorem returns_null_drm_call (env : Env) (l : Locals) :
    env.returns_null (drm_call l) = (env.drm_result (drm_call l)).isNone := by
  unfold drm_call
  split <;> rfl

theorem returns_null_egl_call (env : Env) (l : Locals) (g : gbm) :
    env.returns_null (egl_call l g) = (env.egl_result (egl_call l g)).isNone := by
  unfold egl_call
  split_ifs <;> rfl

/-- The four ways `main` ends once the option loop has run through. -/
theorem main_cases (env : Env) (rs : List GetoptResult) (l : Locals)
    (h : option_loop env.abi rs Locals.init = some l) :
    (env.drm_result (drm_call l) = none ∧ main env rs = (-1, [drm_call l])) ∨
    (∃ d, env.drm_result (drm_call l) = some d ∧ env.init_gbm (gbm_args l d) = none ∧
      main env rs = (-1, [drm_call l, .init_gbm (gbm_args l d)])) ∨
    (∃ d g, env.drm_result (drm_call l) = some d ∧ env.init_gbm (gbm_args l d) = some g ∧
      env.egl_result (egl_call l g) = none ∧
      main env rs = (-1, [drm_call l, .init_gbm (gbm_args l d), egl_call l g])) ∨
    (∃ d g e, env.drm_result (drm_call l) = some d ∧ env.init_gbm (gbm_args l d) = some g ∧
      env.egl_result (egl_call l g) = some e ∧
      main env rs = (d.run g e, [drm_call l, .init_gbm (gbm_args l d), egl_call l g,
        .glClearColor, .glClear, .run d g e])) := by
  cases hd : env.drm_result (drm_call l) with
  | none => exact Or.inl ⟨rfl, by simp only [main, h, hd]⟩
  | some d =>
    cases hg : env.init_gbm (gbm_args l d) with
    | none => exact Or.inr (Or.inl ⟨d, rfl, hg, by simp only [main, h, hd, hg]⟩)
    | some g =>
      cases he : env.egl_result (egl_call l g) with
      | none =>
        exact Or.inr (Or.inr (Or.inl ⟨d, g, rfl, hg, he, by simp only [main, h, hd, hg, he]⟩))
      | some e =>
        exact Or.inr (Or.inr (Or.inr ⟨d, g, e, rfl, hg, he, by simp only [main, h, hd, hg, he]⟩))

/-- The first call of `main`, when the options parse, is its DRM initialisation call. -/
theorem head_call (env : Env) (rs : List GetoptResult) (hp : ∀ r ∈ rs, accepted r = true) :
    ∃ l, LoopSpec env.abi rs l ∧ (main env rs).2.head? = some (drm_call l) := by
  obtain ⟨l, hl, hs⟩ := option_loop_of_accepted env.abi rs hp
  refine ⟨l, hs, ?_⟩
  rcases main_cases env rs l hl with ⟨_, hm⟩ | ⟨d, _, _, hm⟩ | ⟨d, g, _, _, _, hm⟩ |
    ⟨d, g, e, _, _, _, hm⟩ <;> rw [hm] <;> rfl

theorem drm_call_cases (l : Locals) :
    drm_call l = .init_drm_atomic (drm_args l) ∨ drm_call l = .init_drm_legacy (drm_args l) := by
  unfold drm_call
  split
  · exact Or.inl rfl
  · exact Or.inr rfl

/-- A call of one stage is not a call of another. -/
theorem ne_of_stage_ne (c1 c2 : Call) (h : c1.stage ≠ c2.stage) : c1 ≠ c2 :=
  fun e => h (congrArg Call.stage e)

/-! ## Decimal numerals through `strtoul` -/

theorem digit_value_digit (d : Nat) (h : d < 10) : digit_value (d + 48) = some d := by
  unfold digit_value
  rw [if_pos (by omega)]
  simp

theorem strto_digits_decimal (ds : List Nat) (acc : Nat) (h : ∀ d ∈ ds, d < 10) :
    strto_digits 10 (ds.map (fun d => d + 48)) acc = ds.foldl (fun a d => a * 10 + d) acc := by
  induction ds generalizing acc with
  | nil => rfl
  | cons d ds ih =>
    have hd : d < 10 := h d (by simp)
    simp only [List.map_cons, strto_digits, digit_value_digit d hd, if_pos hd, List.foldl_cons]
    exact ih _ (fun x hx => h x (by simp [hx]))

theorem foldl_digits (n : Nat) :
    (Nat.digits 10 n).reverse.foldl (fun a d => a * 10 + d) 0 = n := by
  rw [List.foldl_reverse]
  have h := Nat.ofDigits_digits 10 n
  rw [Nat.ofDigits_eq_foldr] at h
  simp only [Nat.cast_id] at h
  have e : (fun (x y : Nat) => y * 10 + x) = (fun (x y : Nat) => x + 10 * y) := by
    funext x y; omega
  rw [e]
  exact h

theorem strto_value_of_digit (c : Nat) (cs : CString) (h1 : 49 ≤ c) :
    strto_value (c :: cs) = strto_digits 10 (c :: cs) 0 := by
  unfold strto_value
  split
  · rename_i heq
    simp only [List.cons.injEq] at heq
    omega
  · rename_i heq
    simp only [List.cons.injEq] at heq
    omega
  · rfl

theorem strtou_base0_of_digit (max : Nat) (c : Nat) (cs : CString) (h1 : 49 ≤ c) (h2 : c ≤ 57) :
    strtou_base0 max (c :: cs)
      = if max < strto_digits 10 (c :: cs) 0 then max else strto_digits 10 (c :: cs) 0 := by
  have hsp : isspace c = false := by
    unfold isspace
    simp
    omega
  have e1 : (c :: cs).dropWhile isspace = c :: cs := by
    simp [List.dropWhile, hsp]
  have e2 : ((c :: cs).head? == some 45) = false := by
    simp; omega
  have e3 : ((c :: cs).head? == some 43) = false := by
    simp; omega
  unfold strtou_base0
  simp only [e1, e2, e3, Bool.or_false, Bool.false_eq_true, if_false,
    strto_value_of_digit c cs h1]

theorem strtou_base0_decimal (max n : Nat) (h : n ≤ max) : strtou_base0 max (decimal n) = n := by
  unfold decimal
  by_cases h0 : n = 0
  · subst h0
    simp [strtou_base0, strto_value, strto_digits, digit_value, List.dropWhile, isspace]
  · rw [if_neg h0]
    have hne : Nat.digits 10 n ≠ [] := Nat.digits_ne_nil_iff_ne_zero.mpr h0
    have hlast := Nat.getLast_digit_ne_zero 10 h0
    have hlt : ∀ d ∈ (Nat.digits 10 n).reverse, d < 10 :=
      fun d hd => Nat.digits_lt_base (by norm_num) (List.mem_reverse.mp hd)
    have hv : strto_digits 10 ((Nat.digits 10 n).reverse.map (fun d => d + 48)) 0 = n := by
      rw [strto_digits_decimal _ _ hlt, foldl_digits]
    obtain ⟨d0, ds, hds⟩ : ∃ d0 ds, (Nat.digits 10 n).reverse = d0 :: ds := by
      cases hr : (Nat.digits 10 n).reverse with
      | nil => exact absurd (List.reverse_eq_nil_iff.mp hr) hne
      | cons d0 ds => exact ⟨d0, ds, rfl⟩
    have hd0 : d0 ≠ 0 := by
      have : (Nat.digits 10 n).getLast hne = d0 := by
        have h1 : (Nat.digits 10 n) = (d0 :: ds).reverse := by
          rw [← hds, List.reverse_reverse]
        simp [h1]
      rw [← this]
      exact hlast
    have hd0lt : d0 < 10 := hlt d0 (by rw [hds]; simp)
    rw [hds] at hv ⊢
    simp only [List.map_cons] at hv ⊢
    rw [strtou_base0_of_digit max (d0 + 48) _ (by omega) (by omega), hv]
    rw [if_neg (by omega)]

theorem strtoul_decimal (abi : Abi) (n : Nat) (h : n < 2 ^ 32) :
    strtoul abi (decimal n) = n := by
  apply strtou_base0_decimal
  unfold ULONG_MAX
  split <;> omega

theorem last_arg_eq_none (c : Char) (rs : List GetoptResult) :
    last_arg c rs = none ↔ has_opt c rs = false := by
  unfold last_arg has_opt
  rw [Option.map_eq_none', List.getLast?_eq_none_iff, List.filter_eq_nil_iff]
  simp

theorem to_int_of_lt (n : Nat) (h : n < 2 ^ 31) : to_int n = (n : Int) := by
  unfold to_int
  rw [Nat.mod_eq_of_lt (by omega), if_pos h]

theorem int_arg_decimal (abi : Abi) (c : Char) (dflt : Int) (rs : List GetoptResult) (n : Nat)
    (hn : n < 2 ^ 31) (h : last_arg c rs = some (decimal n)) : int_arg abi c dflt rs = n := by
  unfold int_arg
  rw [h]
  simp only [strtoul_decimal abi n (by omega)]
  exact to_int_of_lt n hn

/-! ## Exit status (C1) -/

/-- C1: when the options parse, `main` returns -1 if an initialisation call it
made (DRM, GBM or render backend) returned NULL, and otherwise it returns
exactly what the `run` operation of the value DRM initialisation returned
gave back, `run` being the last call made. -/
theorem main_exit_status (env : Env) (rs : List GetoptResult)
    (hp : ∀ r ∈ rs, accepted r = true) :
    ((∃ c ∈ (main env rs).2, env.returns_null c = true) → (main env rs).1 = -1) ∧
    ((∀ c ∈ (main env rs).2, env.returns_null c = false) →
      ∃ c0 d g e, (main env rs).2.head? = some c0 ∧ c0.stage = some Stage.drm_init ∧
        env.drm_result c0 = some d ∧
        (main env rs).2.getLast? = some (Call.run d g e) ∧
        (main env rs).1 = d.run g e ∧ ((main env rs).1 = 0 ↔ d.run g e = 0)) := by
  obtain ⟨l, hl, -⟩ := option_loop_of_accepted env.abi rs hp
  have hnd := returns_null_drm_call env l
  rcases main_cases env rs l hl with ⟨hd, hm⟩ | ⟨d, hd, hg, hm⟩ | ⟨d, g, hd, hg, he, hm⟩ |
    ⟨d, g, e, hd, hg, he, hm⟩
  · rw [hm]
    refine ⟨fun _ => rfl, fun h => ?_⟩
    have h1 := h (drm_call l) (by simp)
    simp [hnd, hd] at h1
  · rw [hm]
    refine ⟨fun _ => rfl, fun h => ?_⟩
    have h1 := h (.init_gbm (gbm_args l d)) (by simp)
    simp [hg] at h1
  · rw [hm]
    refine ⟨fun _ => rfl, fun h => ?_⟩
    have h1 := h (egl_call l g) (by simp)
    simp [returns_null_egl_call, he] at h1
  · rw [hm]
    refine ⟨fun h => ?_, fun _ => ⟨drm_call l, d, g, e, rfl, stage_drm_call l, hd, rfl, rfl,
      Iff.rfl⟩⟩
    obtain ⟨c, hc, hn⟩ := h
    simp only [List.mem_cons, List.mem_singleton, List.not_mem_nil, or_false] at hc
    rcases hc with rfl | rfl | rfl | rfl | rfl | rfl
    · simp [hnd, hd] at hn
    · simp [hg] at hn
    · simp [returns_null_egl_call, he] at hn
    · simp at hn
    · simp at hn
    · simp at hn

/-- Instance at `-A -c 10`, every initialisation succeeding: the
status is the 7 of the atomic strategy's `run`; it is -1 when no device opens. -/
theorem main_exit_status_witness :
    (∀ r ∈ sample_atomic, accepted r = true) ∧
    (((∃ c ∈ (main (env_ok abi_x86_64) sample_atomic).2,
        (env_ok abi_x86_64).returns_null c = true) →
        (main (env_ok abi_x86_64) sample_atomic).1 = -1) ∧
    ((∀ c ∈ (main (env_ok abi_x86_64) sample_atomic).2,
        (env_ok abi_x86_64).returns_null c = false) →
      ∃ c0 d g e, (main (env_ok abi_x86_64) sample_atomic).2.head? = some c0 ∧
        c0.stage = some Stage.drm_init ∧
        (env_ok abi_x86_64).drm_result c0 = some d ∧
        (main (env_ok abi_x86_64) sample_atomic).2.getLast? = some (Call.run d g e) ∧
        (main (env_ok abi_x86_64) sample_atomic).1 = d.run g e ∧
        ((main (env_ok abi_x86_64) sample_atomic).1 = 0 ↔ d.run g e = 0))) ∧
    (main (env_ok abi_x86_64) sample_atomic).1 = 7 ∧
    (main (env_no_drm abi_x86_64) sample_atomic).1 = -1 :=
  ⟨by decide, main_exit_status (env_ok abi_x86_64) sample_atomic (by decide), by decide,
    by decide⟩

/-! ## Strategy selection (C2) -/

/-- C2: when the options parse, `main` makes exactly one DRM initialisation
call: `init_drm_atomic` if `-A` is among the options and `init_drm_legacy` if
not; and a `run` that `main` invokes is the `run` of the value that this
initialisation returned, whose status `main` returns. -/
theorem strategy_selected_once (env : Env) (rs : List GetoptResult)
    (hp : ∀ r ∈ rs, accepted r = true) :
    ∃ a, (main env rs).2.filter (fun c => c.stage == some Stage.drm_init)
        = [if has_opt 'A' rs = true then Call.init_drm_atomic a else Call.init_drm_legacy a] ∧
      ∀ d g e, Call.run d g e ∈ (main env rs).2 →
        (if has_opt 'A' rs = true then env.init_drm_atomic a else env.init_drm_legacy a)
          = some d ∧ (main env rs).1 = d.run g e := by
  obtain ⟨l, hl, hs⟩ := option_loop_of_accepted env.abi rs hp
  have hcall : drm_call l
      = if has_opt 'A' rs = true then Call.init_drm_atomic (drm_args l)
        else Call.init_drm_legacy (drm_args l) := by
    unfold drm_call
    rw [hs.atomic]
    cases has_opt 'A' rs <;> simp
  have hres : env.drm_result (drm_call l)
      = if has_opt 'A' rs = true then env.init_drm_atomic (drm_args l)
        else env.init_drm_legacy (drm_args l) := by
    rw [hcall]
    cases has_opt 'A' rs <;> simp [Env.drm_result]
  refine ⟨drm_args l, ?_⟩
  rw [← hcall, ← hres]
  have n1 : ∀ d g e, Call.run d g e ≠ drm_call l :=
    fun d g e => ne_of_stage_ne _ _ (by simp)
  have n2 : ∀ d g e a, Call.run d g e ≠ Call.init_gbm a :=
    fun d g e a => ne_of_stage_ne _ _ (by simp)
  have n3 : ∀ d g e g1, Call.run d g e ≠ egl_call l g1 :=
    fun d g e g1 => ne_of_stage_ne _ _ (by simp)
  rcases main_cases env rs l hl with ⟨hd, hm⟩ | ⟨d, hd, hg, hm⟩ | ⟨d, g, hd, hg, he, hm⟩ |
    ⟨d, g, e, hd, hg, he, hm⟩
  · rw [hm]
    refine ⟨by simp [List.filter_cons], fun d1 g1 e1 h => ?_⟩
    simp [n1] at h
  · rw [hm]
    refine ⟨by simp [List.filter_cons], fun d1 g1 e1 h => ?_⟩
    simp [n1, n2] at h
  · rw [hm]
    refine ⟨by simp [List.filter_cons], fun d1 g1 e1 h => ?_⟩
    simp [n1, n2, n3] at h
  · rw [hm]
    refine ⟨by simp [List.filter_cons], fun d1 g1 e1 h => ?_⟩
    simp only [List.mem_cons, List.mem_singleton, List.not_mem_nil, or_false] at h
    rcases h with h | h | h | h | h | h
    · exact absurd h (n1 _ _ _)
    · exact absurd h (n2 _ _ _ _)
    · exact absurd h (n3 _ _ _ _)
    · cases h
    · cases h
    · cases h
      exact ⟨hd, rfl⟩

/-- Instance at `-A -c 10`, every initialisation succeeding. -/
theorem strategy_selected_once_witness :
    (∀ r ∈ sample_atomic, accepted r = true) ∧
    ∃ a, (main (env_ok abi_x86_64) sample_atomic).2.filter
          (fun c => c.stage == some Stage.drm_init)
        = [if has_opt 'A' sample_atomic = true then Call.init_drm_atomic a
            else Call.init_drm_legacy a] ∧
      ∀ d g e, Call.run d g e ∈ (main (env_ok abi_x86_64) sample_atomic).2 →
        (if has_opt 'A' sample_atomic = true then (env_ok abi_x86_64).init_drm_atomic a
          else (env_ok abi_x86_64).init_drm_legacy a) = some d ∧
        (main (env_ok abi_x86_64) sample_atomic).1 = d.run g e :=
  ⟨by decide, strategy_selected_once (env_ok abi_x86_64) sample_atomic (by decide)⟩

/-! ## Order of the calls (C3) -/

/-- C3: in every execution of `main` the calls to the collaborators, in the
order made, are a prefix of DRM initialisation, GBM initialisation,
render-backend initialisation, `run` (the two GL calls that clear the colour
buffer just before `run` belong to no stage); and no call follows a call that
returned NULL. So a stage is entered only after every earlier stage has
succeeded, and the sequence stops at the first failure. -/
theorem call_order (env : Env) (rs : List GetoptResult) :
    (main env rs).2.filterMap Call.stage
        <+: [Stage.drm_init, Stage.gbm_init, Stage.egl_init, Stage.run] ∧
    List.Chain' (fun c _ => env.returns_null c = false) (main env rs).2 := by
  cases hl : option_loop env.abi rs Locals.init with
  | none =>
    have hm : main env rs = (-1, []) := by simp only [main, hl]
    rw [hm]
    exact ⟨List.nil_prefix, List.chain'_nil⟩
  | some l =>
    have hnd := returns_null_drm_call env l
    rcases main_cases env rs l hl with ⟨hd, hm⟩ | ⟨d, hd, hg, hm⟩ | ⟨d, g, hd, hg, he, hm⟩ |
      ⟨d, g, e, hd, hg, he, hm⟩
    · rw [hm]
      refine ⟨?_, by simp⟩
      simp only [List.filterMap_cons, stage_drm_call, List.filterMap_nil]
      exact ⟨[.gbm_init, .egl_init, .run], rfl⟩
    · rw [hm]
      refine ⟨?_, by simp [hnd, hd]⟩
      simp only [List.filterMap_cons, stage_drm_call, stage_init_gbm, List.filterMap_nil]
      exact ⟨[.egl_init, .run], rfl⟩
    · rw [hm]
      refine ⟨?_, by simp [hnd, hd, hg]⟩
      simp only [List.filterMap_cons, stage_drm_call, stage_egl_call, stage_init_gbm,
        stage_run, stage_glClear, stage_glClearColor, List.filterMap_nil]
      exact ⟨[.run], rfl⟩
    · rw [hm]
      refine ⟨?_, by simp [hnd, hd, hg, returns_null_egl_call, he]⟩
      simp only [List.filterMap_cons, stage_drm_call, stage_egl_call, stage_init_gbm,
        stage_run, stage_glClear, stage_glClearColor, List.filterMap_nil]
      exact ⟨[], rfl⟩

/-! ## Failure of the option loop (C8) -/

theorem main_of_rejected (env : Env) (rs : List GetoptResult) (r : GetoptResult)
    (hr : r ∈ rs) (h : accepted r = false) : main env rs = (-1, []) := by
  simp only [main, option_loop_of_rejected env.abi rs r hr h]

/-- C8: if among the options there is a `-M` whose argument is not one of
`smooth`, `rgba`, `nv12-2img`, `nv12-1img`, or a result whose letter has no
`case` (the `?` of an unknown option, or one of `O`, `p`, `V`, `v`, which the
option tables accept), `main` returns -1 without having called DRM, GBM or
render-backend initialisation or `run`; and each of the four mode names is
accepted by `case 'M'` and sets the technique of that name. -/
theorem option_failure_is_atomic (env : Env) (rs : List GetoptResult) :
    ((∃ r ∈ rs, (r.opt = 'M' ∧ r.optarg ∉ usage_modes.map cstr) ∨ r.opt ∉ handled_letters) →
      main env rs = (-1, [])) ∧
    (∀ c ∈ ['O', 'p', 'V', 'v'],
      (shortopt_arg c shortopts.toList).isSome = true ∧ c ∉ handled_letters) ∧
    ('?' ∉ handled_letters ∧ shortopt_arg '?' shortopts.toList = none) ∧
    (∀ l : Locals,
      option_switch env.abi l ⟨'M', cstr "smooth"⟩ = some { l with mode := .SMOOTH } ∧
      option_switch env.abi l ⟨'M', cstr "rgba"⟩ = some { l with mode := .RGBA } ∧
      option_switch env.abi l ⟨'M', cstr "nv12-2img"⟩ = some { l with mode := .NV12_2IMG } ∧
      option_switch env.abi l ⟨'M', cstr "nv12-1img"⟩ = some { l with mode := .NV12_1IMG }) := by
  refine ⟨?_, by decide, by decide, fun l => ⟨rfl, rfl, rfl, rfl⟩⟩
  rintro ⟨r, hr, h⟩
  apply main_of_rejected env rs r hr
  unfold accepted
  rcases h with ⟨h1, h2⟩ | h
  · simp [h1, h2]
  · simp [h]

/-- Instance at `-g -M fancy`: no call is made. -/
theorem option_failure_is_atomic_witness :
    (∃ r ∈ sample_bad_mode,
      (r.opt = 'M' ∧ r.optarg ∉ usage_modes.map cstr) ∨ r.opt ∉ handled_letters) ∧
    main (env_ok abi_x86_64) sample_bad_mode = (-1, []) :=
  have h : ∃ r ∈ sample_bad_mode,
      (r.opt = 'M' ∧ r.optarg ∉ usage_modes.map cstr) ∨ r.opt ∉ handled_letters :=
    ⟨⟨'M', cstr "fancy"⟩, by decide, Or.inl ⟨rfl, by decide⟩⟩
  ⟨h, (option_failure_is_atomic (env_ok abi_x86_64) sample_bad_mode).1 h⟩

/-! ## Choice of the render backend (C9) -/

theorem mode_of_arg_ne_shadertoy (s : CString) : mode_of_arg s ≠ some .SHADERTOY := by
  unfold mode_of_arg
  split_ifs <;> simp

/-- When the technique in force is `SHADERTOY`, a `-S` option was given. -/
theorem shadertoy_file_given (rs : List GetoptResult)
    (h : technique rs = some .SHADERTOY) : ∃ f, last_arg 'S' rs = some f := by
  induction rs using List.reverseRecOn with
  | nil => simp [technique] at h
  | append_singleton rs r ih =>
    rw [technique_snoc] at h
    rw [last_arg_snoc]
    by_cases h1 : r.opt = 'S'
    · exact ⟨r.optarg, by simp [h1]⟩
    · rw [if_neg h1] at h ⊢
      by_cases h2 : r.opt = 'M'
      · rw [if_pos h2] at h
        rw [← mode_of_arg_eq_named] at h
        exact absurd h (mode_of_arg_ne_shadertoy _)
      · rw [if_neg h2] at h
        exact ih h

/-- When the last of the `-M` and `-S` options is a `-M`, the technique in
force is the one the usage text gives to its argument. -/
theorem technique_of_last_mode (rs : List GetoptResult) (r : GetoptResult) (m : mode)
    (hr : (rs.filter (fun r => r.opt == 'M' || r.opt == 'S')).getLast? = some r)
    (hM : r.opt = 'M') (ht : technique rs = some m) : technique_named r.optarg = some m := by
  unfold technique at ht
  rw [hr] at ht
  have hS : ¬ r.opt = 'S' := by rw [hM]; decide
  simpa [hS] using ht

/-- C9: when the options parse and DRM and GBM initialisation succeed, `main`
makes exactly one render-backend initialisation call, on the value GBM
initialisation returned: `init_cube_gears` if `-g` is among the options;
otherwise, with `m` the technique of the last `-M` or `-S` (`SMOOTH` when there
is none), `init_cube_smooth` for `SMOOTH`, `init_cube_shadertoy` with the file
of the last `-S` for `SHADERTOY`, and `init_cube_tex` with `m` for the three
others; a last `-M smooth`, `-M rgba`, `-M nv12-2img`, `-M nv12-1img` makes `m`
`SMOOTH`, `RGBA`, `NV12_2IMG`, `NV12_1IMG`, and a last `-S` makes it `SHADERTOY`. The call gets the sample count of the last `-s` (`strtoul` of its
argument converted to `int`: `n` for the decimal numeral of `n < 2^31`), 0 when
there is none. -/
theorem backend_selection (env : Env) (rs : List GetoptResult)
    (hp : ∀ r ∈ rs, accepted r = true)
    (hok : ∀ c ∈ (main env rs).2,
      c.stage = some Stage.drm_init ∨ c.stage = some Stage.gbm_init →
        env.returns_null c = false) :
    ∃ a g m, Call.init_gbm a ∈ (main env rs).2 ∧ env.init_gbm a = some g ∧
      technique rs = some m ∧
      (∀ r, (rs.filter (fun r => r.opt == 'M' || r.opt == 'S')).getLast? = some r →
        (r.opt = 'S' → m = .SHADERTOY) ∧
        (r.opt = 'M' → r.optarg = cstr "smooth" → m = .SMOOTH) ∧
        (r.opt = 'M' → r.optarg = cstr "rgba" → m = .RGBA) ∧
        (r.opt = 'M' → r.optarg = cstr "nv12-2img" → m = .NV12_2IMG) ∧
        (r.opt = 'M' → r.optarg = cstr "nv12-1img" → m = .NV12_1IMG)) ∧
      ((rs.filter (fun r => r.opt == 'M' || r.opt == 'S')).getLast? = none → m = .SMOOTH) ∧
      (m = .SHADERTOY → ∃ f, last_arg 'S' rs = some f) ∧
      (has_opt 's' rs = false → int_arg env.abi 's' 0 rs = 0) ∧
      (∀ n : Nat, n < 2 ^ 31 → last_arg 's' rs = some (decimal n) →
        int_arg env.abi 's' 0 rs = n) ∧
      (main env rs).2.filter (fun c => c.stage == some Stage.egl_init)
        = [if has_opt 'g' rs = true then Call.init_cube_gears g (int_arg env.abi 's' 0 rs)
           else if m = .SMOOTH then Call.init_cube_smooth g (int_arg env.abi 's' 0 rs)
           else if m = .SHADERTOY then
             Call.init_cube_shadertoy g (last_arg 'S' rs) (int_arg env.abi 's' 0 rs)
           else Call.init_cube_tex g m (int_arg env.abi 's' 0 rs)] := by
  obtain ⟨l, hl, hs⟩ := option_loop_of_accepted env.abi rs hp
  have hcall : ∀ g, egl_call l g
      = if has_opt 'g' rs = true then Call.init_cube_gears g (int_arg env.abi 's' 0 rs)
        else if l.mode = .SMOOTH then Call.init_cube_smooth g (int_arg env.abi 's' 0 rs)
        else if l.mode = .SHADERTOY then
          Call.init_cube_shadertoy g (last_arg 'S' rs) (int_arg env.abi 's' 0 rs)
        else Call.init_cube_tex g l.mode (int_arg env.abi 's' 0 rs) := by
    intro g
    unfold egl_call
    rw [hs.gears, hs.samples, hs.shadertoy]
    cases has_opt 'g' rs <;> simp
  have hnd := returns_null_drm_call env l
  have hsh : l.mode = .SHADERTOY → ∃ f, last_arg 'S' rs = some f :=
    fun h => shadertoy_file_given rs (by rw [hs.mode, h])
  have hlast : ∀ r, (rs.filter (fun r => r.opt == 'M' || r.opt == 'S')).getLast? = some r →
      (r.opt = 'S' → l.mode = .SHADERTOY) ∧
      (r.opt = 'M' → r.optarg = cstr "smooth" → l.mode = .SMOOTH) ∧
      (r.opt = 'M' → r.optarg = cstr "rgba" → l.mode = .RGBA) ∧
      (r.opt = 'M' → r.optarg = cstr "nv12-2img" → l.mode = .NV12_2IMG) ∧
      (r.opt = 'M' → r.optarg = cstr "nv12-1img" → l.mode = .NV12_1IMG) := by
    intro r hr
    have hnamed := fun hM => technique_of_last_mode rs r l.mode hr hM hs.mode
    refine ⟨fun hS => ?_, fun hM ha => ?_, fun hM ha => ?_, fun hM ha => ?_, fun hM ha => ?_⟩
    · have ht := hs.mode
      unfold technique at ht
      rw [hr] at ht
      simp only [hS, if_true] at ht
      exact (Option.some.inj ht).symm
    · have h := hnamed hM
      rw [ha] at h
      exact (Option.some.inj h).symm
    · have h := hnamed hM
      rw [ha] at h
      exact (Option.some.inj h).symm
    · have h := hnamed hM
      rw [ha] at h
      exact (Option.some.inj h).symm
    · have h := hnamed hM
      rw [ha] at h
      exact (Option.some.inj h).symm
  have hnone : (rs.filter (fun r => r.opt == 'M' || r.opt == 'S')).getLast? = none →
      l.mode = .SMOOTH := by
    intro hr
    have ht := hs.mode
    unfold technique at ht
    rw [hr] at ht
    exact (Option.some.inj ht).symm
  have hs0 : has_opt 's' rs = false → int_arg env.abi 's' 0 rs = 0 := by
    intro h
    rw [int_arg, (last_arg_eq_none 's' rs).mpr h]
  have hsn : ∀ n : Nat, n < 2 ^ 31 → last_arg 's' rs = some (decimal n) →
      int_arg env.abi 's' 0 rs = n :=
    fun n hn h => int_arg_decimal env.abi 's' 0 rs n hn h
  rcases main_cases env rs l hl with ⟨hd, hm⟩ | ⟨d, hd, hg, hm⟩ | ⟨d, g, hd, hg, he, hm⟩ |
    ⟨d, g, e, hd, hg, he, hm⟩
  · rw [hm] at hok
    have h1 := hok (drm_call l) (by simp) (Or.inl (stage_drm_call l))
    simp [hnd, hd] at h1
  · rw [hm] at hok
    have h1 := hok (.init_gbm (gbm_args l d)) (by simp) (Or.inr rfl)
    simp [hg] at h1
  · rw [hm]
    refine ⟨gbm_args l d, g, l.mode, by simp, hg, hs.mode, hlast, hnone, hsh, hs0, hsn, ?_⟩
    rw [← hcall]
    simp [List.filter_cons]
  · rw [hm]
    refine ⟨gbm_args l d, g, l.mode, by simp, hg, hs.mode, hlast, hnone, hsh, hs0, hsn, ?_⟩
    rw [← hcall]
    simp [List.filter_cons]

/-- Instance at `-M rgba -S cube.frag -s 4 -M nv12-2img`: the last
of the three wins and `init_cube_tex` gets `NV12_2IMG` and 4 samples. -/
theorem backend_selection_witness :
    (∀ r ∈ sample_textured, accepted r = true) ∧
    (∀ c ∈ (main (env_ok abi_x86_64) sample_textured).2,
      c.stage = some Stage.drm_init ∨ c.stage = some Stage.gbm_init →
        (env_ok abi_x86_64).returns_null c = false) ∧
    (∃ a g m, Call.init_gbm a ∈ (main (env_ok abi_x86_64) sample_textured).2 ∧
      (env_ok abi_x86_64).init_gbm a = some g ∧
      technique sample_textured = some m ∧
      (∀ r, (sample_textured.filter (fun r => r.opt == 'M' || r.opt == 'S')).getLast? = some r →
        (r.opt = 'S' → m = .SHADERTOY) ∧
        (r.opt = 'M' → r.optarg = cstr "smooth" → m = .SMOOTH) ∧
        (r.opt = 'M' → r.optarg = cstr "rgba" → m = .RGBA) ∧
        (r.opt = 'M' → r.optarg = cstr "nv12-2img" → m = .NV12_2IMG) ∧
        (r.opt = 'M' → r.optarg = cstr "nv12-1img" → m = .NV12_1IMG)) ∧
      ((sample_textured.filter (fun r => r.opt == 'M' || r.opt == 'S')).getLast? = none →
        m = .SMOOTH) ∧
      (m = .SHADERTOY → ∃ f, last_arg 'S' sample_textured = some f) ∧
      (has_opt 's' sample_textured = false →
        int_arg (env_ok abi_x86_64).abi 's' 0 sample_textured = 0) ∧
      (∀ n : Nat, n < 2 ^ 31 → last_arg 's' sample_textured = some (decimal n) →
        int_arg (env_ok abi_x86_64).abi 's' 0 sample_textured = n) ∧
      (main (env_ok abi_x86_64) sample_textured).2.filter
          (fun c => c.stage == some Stage.egl_init)
        = [if has_opt 'g' sample_textured = true then
             Call.init_cube_gears g (int_arg (env_ok abi_x86_64).abi 's' 0 sample_textured)
           else if m = .SMOOTH then
             Call.init_cube_smooth g (int_arg (env_ok abi_x86_64).abi 's' 0 sample_textured)
           else if m = .SHADERTOY then
             Call.init_cube_shadertoy g (last_arg 'S' sample_textured)
               (int_arg (env_ok abi_x86_64).abi 's' 0 sample_textured)
           else Call.init_cube_tex g m
               (int_arg (env_ok abi_x86_64).abi 's' 0 sample_textured)]) ∧
    (main (env_ok abi_x86_64) sample_textured).2.filter
        (fun c => c.stage == some Stage.egl_init)
      = [Call.init_cube_tex ⟨1⟩ .NV12_2IMG 4] ∧
    (main (env_ok abi_x86_64) [⟨'M', cstr "smooth"⟩]).2.filter
        (fun c => c.stage == some Stage.egl_init)
      = [Call.init_cube_smooth ⟨1⟩ 0] ∧
    (main (env_ok abi_x86_64) [⟨'M', cstr "rgba"⟩]).2.filter
        (fun c => c.stage == some Stage.egl_init)
      = [Call.init_cube_tex ⟨1⟩ .RGBA 0] ∧
    (main (env_ok abi_x86_64) [⟨'M', cstr "nv12-1img"⟩]).2.filter
        (fun c => c.stage == some Stage.egl_init)
      = [Call.init_cube_tex ⟨1⟩ .NV12_1IMG 0] ∧
    (main (env_ok abi_x86_64) [⟨'M', cstr "rgba"⟩, ⟨'g', []⟩]).2.filter
        (fun c => c.stage == some Stage.egl_init)
      = [Call.init_cube_gears ⟨1⟩ 0] :=
  have hp : ∀ r ∈ sample_textured, accepted r = true := by decide
  have hok : ∀ c ∈ (main (env_ok abi_x86_64) sample_textured).2,
      c.stage = some Stage.drm_init ∨ c.stage = some Stage.gbm_init →
        (env_ok abi_x86_64).returns_null c = false := by
    intro c hc _
    have hm : (main (env_ok abi_x86_64) sample_textured).2
        = [Call.init_drm_legacy ⟨none, [], -1, 0, UINT_MAX, false⟩,
           Call.init_gbm ⟨3, 1920, 1080, DRM_FORMAT_XRGB8888, 0, false⟩,
           Call.init_cube_tex ⟨1⟩ .NV12_2IMG 4, .glClearColor, .glClear,
           Call.run (sample_drm 0) ⟨1⟩ ⟨5⟩] := rfl
    rw [hm] at hc
    simp only [List.mem_cons, List.mem_singleton, List.not_mem_nil, or_false] at hc
    rcases hc with rfl | rfl | rfl | rfl | rfl | rfl <;> rfl
  ⟨hp, hok, backend_selection (env_ok abi_x86_64) sample_textured hp hok, rfl, rfl, rfl,
    rfl, rfl⟩

/-! ## Inputs of DRM initialisation (C10) -/

/-- C10: whatever the options, a DRM initialisation call of `main` gets the
empty mode string and refresh rate 0; its other arguments are the device of the
last `-D` (NULL when absent), the connector of the last `-n` (-1 when absent),
the frame limit, and the non-blocking flag, set exactly when `-N` is among the
options. When the options parse, such a call is made first. -/
theorem drm_init_inputs (env : Env) (rs : List GetoptResult) :
    (∀ c ∈ (main env rs).2, c.stage = some Stage.drm_init →
      ∃ a : DrmArgs, (c = .init_drm_atomic a ∨ c = .init_drm_legacy a) ∧
        a.mode_str = [] ∧ a.vrefresh = 0 ∧
        a = ⟨last_arg 'D' rs, [], int_arg env.abi 'n' (-1) rs, 0, count_of env.abi rs,
              has_opt 'N' rs⟩) ∧
    ((∀ r ∈ rs, accepted r = true) →
      ∃ c, (main env rs).2.head? = some c ∧ c.stage = some Stage.drm_init) := by
  cases hl : option_loop env.abi rs Locals.init with
  | none =>
    have hm : main env rs = (-1, []) := by simp only [main, hl]
    rw [hm]
    refine ⟨by simp, fun hp => ?_⟩
    obtain ⟨l, hl1, -⟩ := option_loop_of_accepted env.abi rs hp
    rw [hl] at hl1
    cases hl1
  | some l =>
    have hs := option_loop_spec env.abi rs l hl
    have hargs : drm_args l = ⟨last_arg 'D' rs, [], int_arg env.abi 'n' (-1) rs, 0,
        count_of env.abi rs, has_opt 'N' rs⟩ := by
      unfold drm_args
      rw [hs.device, hs.mode_str, hs.connector_id, hs.vrefresh, hs.count, hs.nonblocking]
    have hdc : ∃ a : DrmArgs, (drm_call l = .init_drm_atomic a ∨ drm_call l = .init_drm_legacy a) ∧
        a.mode_str = [] ∧ a.vrefresh = 0 ∧
        a = ⟨last_arg 'D' rs, [], int_arg env.abi 'n' (-1) rs, 0, count_of env.abi rs,
              has_opt 'N' rs⟩ := by
      refine ⟨drm_args l, ?_, by rw [hargs], by rw [hargs], hargs⟩
      unfold drm_call
      split
      · exact Or.inl rfl
      · exact Or.inr rfl
    have key : ∀ t : List Call, (∀ c ∈ t, c.stage ≠ some Stage.drm_init) →
        ∀ c ∈ drm_call l :: t, c.stage = some Stage.drm_init →
          ∃ a : DrmArgs, (c = .init_drm_atomic a ∨ c = .init_drm_legacy a) ∧
            a.mode_str = [] ∧ a.vrefresh = 0 ∧
            a = ⟨last_arg 'D' rs, [], int_arg env.abi 'n' (-1) rs, 0, count_of env.abi rs,
                  has_opt 'N' rs⟩ := by
      intro t ht c hc hst
      rcases List.mem_cons.mp hc with rfl | hc
      · exact hdc
      · exact absurd hst (ht c hc)
    rcases main_cases env rs l hl with ⟨hd, hm⟩ | ⟨d, hd, hg, hm⟩ | ⟨d, g, hd, hg, he, hm⟩ |
      ⟨d, g, e, hd, hg, he, hm⟩
    · rw [hm]
      exact ⟨key [] (by simp), fun _ => ⟨drm_call l, rfl, stage_drm_call l⟩⟩
    · rw [hm]
      exact ⟨key _ (by simp), fun _ => ⟨drm_call l, rfl, stage_drm_call l⟩⟩
    · rw [hm]
      exact ⟨key _ (by simp), fun _ => ⟨drm_call l, rfl, stage_drm_call l⟩⟩
    · rw [hm]
      exact ⟨key _ (by simp), fun _ => ⟨drm_call l, rfl, stage_drm_call l⟩⟩

/-- Instance at `-D /dev/dri/card1 -n 42 -N -M rgba`: the `-M` leaves
the mode string empty. -/
theorem drm_init_inputs_witness :
    (∀ r ∈ sample_device, accepted r = true) ∧
    (main (env_ok abi_x86_64) sample_device).2.head?
      = some (Call.init_drm_legacy ⟨some (cstr "/dev/dri/card1"), [], 42, 0, UINT_MAX, true⟩) ∧
    (∃ a : DrmArgs,
      (Call.init_drm_legacy ⟨some (cstr "/dev/dri/card1"), [], 42, 0, UINT_MAX, true⟩
          = .init_drm_atomic a ∨
        Call.init_drm_legacy ⟨some (cstr "/dev/dri/card1"), [], 42, 0, UINT_MAX, true⟩
          = .init_drm_legacy a) ∧
      a.mode_str = [] ∧ a.vrefresh = 0 ∧
      a = ⟨last_arg 'D' sample_device, [], int_arg (env_ok abi_x86_64).abi 'n' (-1) sample_device,
            0, count_of (env_ok abi_x86_64).abi sample_device, has_opt 'N' sample_device⟩) :=
  ⟨by decide, rfl,
    (drm_init_inputs (env_ok abi_x86_64) sample_device).1 _
      (List.mem_cons_self _ _) rfl⟩

/-! ## The frame-count limit (C5) -/

/-- C5 fails as stated: with `-c 4294967295` a `-c` option is given and yet the
limit passed to DRM initialisation is the unbounded sentinel `2^32 - 1`. -/
theorem sentinel_passed_with_count_option :
    has_opt 'c' [⟨'c', cstr "4294967295"⟩] = true ∧
    (main (env_ok abi_x86_64) [⟨'c', cstr "4294967295"⟩]).2.head?
      = some (Call.init_drm_legacy ⟨none, [], -1, 0, 2 ^ 32 - 1, false⟩) :=
  ⟨by decide, rfl⟩

/-- C5, amended: when the options parse, the frame limit passed to DRM
initialisation is `2^32 - 1` if no `-c` is given, and otherwise the value
`strtoul (arg, NULL, 0)` of the last `-c` argument reduced modulo `2^32`; for
the decimal numeral of a number `n < 2^32` that is `n` itself, so `-c 0`
passes 0 and `-c 4294967295` passes the sentinel as well. -/
theorem frame_limit_passed (env : Env) (rs : List GetoptResult)
    (hp : ∀ r ∈ rs, accepted r = true) :
    ∃ c a, (main env rs).2.head? = some c ∧
      (c = .init_drm_atomic a ∨ c = .init_drm_legacy a) ∧
      (has_opt 'c' rs = false → a.count = 2 ^ 32 - 1) ∧
      (∀ s, last_arg 'c' rs = some s → a.count = strtoul env.abi s % 2 ^ 32) ∧
      (∀ n, n < 2 ^ 32 → last_arg 'c' rs = some (decimal n) → a.count = n) := by
  obtain ⟨l, hs, hc⟩ := head_call env rs hp
  have hcount : (drm_args l).count = count_of env.abi rs := hs.count
  refine ⟨drm_call l, drm_args l, hc, drm_call_cases l, fun h => ?_, fun s h => ?_,
    fun n hn h => ?_⟩
  · rw [hcount, count_of, (last_arg_eq_none 'c' rs).mpr h]
    rfl
  · rw [hcount, count_of, h]
  · rw [hcount, count_of, h]
    simp only [strtoul_decimal env.abi n hn]
    exact Nat.mod_eq_of_lt hn

/-- Instance at `-A -c 0`. -/
theorem frame_limit_passed_witness :
    (∀ r ∈ sample_count_zero, accepted r = true) ∧
    ∃ c a, (main (env_ok abi_arm32) sample_count_zero).2.head? = some c ∧
      (c = .init_drm_atomic a ∨ c = .init_drm_legacy a) ∧
      (has_opt 'c' sample_count_zero = false → a.count = 2 ^ 32 - 1) ∧
      (∀ s, last_arg 'c' sample_count_zero = some s →
        a.count = strtoul (env_ok abi_arm32).abi s % 2 ^ 32) ∧
      (∀ n, n < 2 ^ 32 → last_arg 'c' sample_count_zero = some (decimal n) → a.count = n) :=
  ⟨by decide, frame_limit_passed (env_ok abi_arm32) sample_count_zero (by decide)⟩

/-! ## The pixel format (C4) -/

theorem char_to_u32_of_plain (abi : Abi) (b : Nat) (hb : b < 256)
    (h : abi.char_signed = false ∨ b < 128) : char_to_u32 abi b = b := by
  unfold char_to_u32
  rw [Nat.mod_eq_of_lt hb]
  rcases h with h | h
  · simp [h]
  · rw [if_neg]
    simp
    intro _
    exact h

theorem char_to_u32_shift24 (abi : Abi) (b : Nat) (hb : b < 256) :
    (char_to_u32 abi b <<< 24) % 2 ^ 32 = b * 2 ^ 24 := by
  unfold char_to_u32
  rw [Nat.mod_eq_of_lt hb]
  split
  · rw [Nat.shiftLeft_eq]
    omega
  · rw [Nat.shiftLeft_eq]
    omega

theorem fourcc_code_eq (abi : Abi) (a b c d : Nat) (ha : a < 256) (hb : b < 256)
    (hc : c < 256) (hd : d < 256)
    (h : abi.char_signed = false ∨ (a < 128 ∧ b < 128 ∧ c < 128)) :
    fourcc_code abi a b c d = a + b * 2 ^ 8 + c * 2 ^ 16 + d * 2 ^ 24 := by
  unfold fourcc_code
  rw [char_to_u32_shift24 abi d hd,
    char_to_u32_of_plain abi a ha (h.imp id (fun x => x.1)),
    char_to_u32_of_plain abi b hb (h.imp id (fun x => x.2.1)),
    char_to_u32_of_plain abi c hc (h.imp id (fun x => x.2.2))]
  rw [Nat.shiftLeft_eq, Nat.shiftLeft_eq, Nat.mod_eq_of_lt (by omega), Nat.mod_eq_of_lt (by omega)]
  have e1 : a ||| b * 2 ^ 8 = a + b * 2 ^ 8 := by
    rw [Nat.or_comm, Nat.mul_comm b, ← Nat.mul_add_lt_is_or (by omega) b]
    omega
  have e2 : (a + b * 2 ^ 8) ||| c * 2 ^ 16 = a + b * 2 ^ 8 + c * 2 ^ 16 := by
    rw [Nat.or_comm, Nat.mul_comm c, ← Nat.mul_add_lt_is_or (by omega) c]
    omega
  have e3 : (a + b * 2 ^ 8 + c * 2 ^ 16) ||| d * 2 ^ 24
      = a + b * 2 ^ 8 + c * 2 ^ 16 + d * 2 ^ 24 := by
    rw [Nat.or_comm, Nat.mul_comm d, ← Nat.mul_add_lt_is_or (by omega) d]
    omega
  rw [e1, e2, e3]

theorem fourcc_chars_eq (s : CString) (h : s.length < 2 ^ 31) :
    fourcc_chars s = (s.getD 0 32, s.getD 1 32, s.getD 2 32, s.getD 3 32) := by
  unfold fourcc_chars strlen
  rw [to_int_of_lt _ h]
  rcases s with _ | ⟨a, _ | ⟨b, _ | ⟨c, _ | ⟨d, r⟩⟩⟩⟩
  · rfl
  · rfl
  · rfl
  · rfl
  · have h0 : ((((a :: b :: c :: d :: r).length : Nat) : Int) > 0) := by
      simp only [List.length_cons]; omega
    have h1 : ((((a :: b :: c :: d :: r).length : Nat) : Int) > 1) := by
      simp only [List.length_cons]; omega
    have h2 : ((((a :: b :: c :: d :: r).length : Nat) : Int) > 2) := by
      simp only [List.length_cons]; omega
    have h3 : ((((a :: b :: c :: d :: r).length : Nat) : Int) > 3) := by
      simp only [List.length_cons]; omega
    simp only [if_pos h0, if_pos h1, if_pos h2, if_pos h3]
    rfl

theorem format_of_arg_eq (abi : Abi) (s : CString) (hlen : s.length < 2 ^ 31)
    (hb : ∀ b ∈ s, b < 256) (hs : abi.char_signed = false ∨ ∀ b ∈ s.take 3, b < 128) :
    format_of_arg abi s
      = s.getD 0 32 + s.getD 1 32 * 2 ^ 8 + s.getD 2 32 * 2 ^ 16 + s.getD 3 32 * 2 ^ 24 := by
  unfold format_of_arg
  rw [fourcc_chars_eq s hlen]
  simp only
  rcases s with _ | ⟨a, _ | ⟨b, _ | ⟨c, _ | ⟨d, r⟩⟩⟩⟩
  all_goals
    simp only [List.mem_cons, List.not_mem_nil, or_false, forall_eq_or_imp, List.take,
      forall_const, forall_eq, and_true, true_and] at hb hs
    refine fourcc_code_eq abi _ _ _ _ ?_ ?_ ?_ ?_ ?_
    · simp <;> omega
    · simp <;> omega
    · simp <;> omega
    · simp <;> omega
    · rcases hs with hs | hs
      · exact Or.inl hs
      · right
        simp <;> omega

/-- A GBM initialisation call of `main` comes after a successful DRM
initialisation and carries the values of the locals. -/
theorem init_gbm_mem (env : Env) (rs : List GetoptResult) (l : Locals)
    (hl : option_loop env.abi rs Locals.init = some l) (a : GbmArgs)
    (ha : Call.init_gbm a ∈ (main env rs).2) :
    ∃ d, env.drm_result (drm_call l) = some d ∧ a = gbm_args l d ∧
      (env.init_gbm a = none → main env rs = (-1, [drm_call l, .init_gbm a])) := by
  have n1 : Call.init_gbm a ≠ drm_call l := ne_of_stage_ne _ _ (by simp)
  have n3 : ∀ g, Call.init_gbm a ≠ egl_call l g := fun g => ne_of_stage_ne _ _ (by simp)
  rcases main_cases env rs l hl with ⟨hd, hm⟩ | ⟨d, hd, hg, hm⟩ | ⟨d, g, hd, hg, he, hm⟩ |
    ⟨d, g, e, hd, hg, he, hm⟩
  · rw [hm] at ha
    simp [n1] at ha
  · rw [hm] at ha
    simp [n1] at ha
    subst ha
    exact ⟨d, hd, rfl, fun _ => hm⟩
  · rw [hm] at ha
    simp [n1, n3] at ha
    subst ha
    exact ⟨d, hd, rfl, fun h => by rw [hg] at h; cases h⟩
  · rw [hm] at ha
    simp [n1, n3] at ha
    subst ha
    exact ⟨d, hd, rfl, fun h => by rw [hg] at h; cases h⟩

/-- C4 fails as stated where plain `char` is signed: for the one-byte argument
`0xC8` the format handed to GBM initialisation is `0xFFFFFFC8`, not
`0xC8 + 0x20 * 2^8 + 0x20 * 2^16 + 0x20 * 2^24`. -/
theorem format_sign_extended :
    (main (env_ok abi_x86_64) [⟨'f', [200]⟩]).2
      = [Call.init_drm_legacy ⟨none, [], -1, 0, UINT_MAX, false⟩,
         Call.init_gbm ⟨3, 1920, 1080, 4294967240, 0, false⟩,
         Call.init_cube_smooth ⟨1⟩ 0, .glClearColor, .glClear,
         Call.run (sample_drm 0) ⟨1⟩ ⟨3⟩] ∧
    (4294967240 : Nat) ≠ 200 + 32 * 2 ^ 8 + 32 * 2 ^ 16 + 32 * 2 ^ 24 :=
  ⟨rfl, by decide⟩

/-- C4, amended: when the options parse and the argument `s` of the last `-f`
(shorter than `2^31` bytes) has its first three bytes below `0x80`, or plain
`char` is unsigned, the format handed to GBM initialisation is
`c0 + c1 * 2^8 + c2 * 2^16 + c3 * 2^24`, `ci` being byte `i` of `s`, or `0x20`
when `s` has no such byte; later bytes of `s` play no part. Without `-f` the
format is the code of `X`, `R`, `2`, `4`. -/
theorem format_handed_to_gbm (env : Env) (rs : List GetoptResult)
    (hp : ∀ r ∈ rs, accepted r = true) (a : GbmArgs)
    (ha : Call.init_gbm a ∈ (main env rs).2)
    (hs : ∀ s, last_arg 'f' rs = some s →
      s.length < 2 ^ 31 ∧ (∀ b ∈ s, b < 256) ∧
        (env.abi.char_signed = false ∨ ∀ b ∈ s.take 3, b < 128)) :
    a.format = match last_arg 'f' rs with
      | none => 88 + 82 * 2 ^ 8 + 50 * 2 ^ 16 + 52 * 2 ^ 24
      | some s =>
        s.getD 0 32 + s.getD 1 32 * 2 ^ 8 + s.getD 2 32 * 2 ^ 16 + s.getD 3 32 * 2 ^ 24 := by
  obtain ⟨l, hl, hspec⟩ := option_loop_of_accepted env.abi rs hp
  obtain ⟨d, -, had, -⟩ := init_gbm_mem env rs l hl a ha
  have hf : a.format = format_of env.abi rs := by
    rw [had]
    exact hspec.format
  rw [hf, format_of]
  cases h : last_arg 'f' rs with
  | none => rfl
  | some s =>
    obtain ⟨h1, h2, h3⟩ := hs s h
    exact format_of_arg_eq env.abi s h1 h2 h3

/-- Instance at `-f AR -x`: two bytes given, two blanks added. -/
theorem format_handed_to_gbm_witness :
    (∀ r ∈ sample_format, accepted r = true) ∧
    Call.init_gbm ⟨3, 1920, 1080, 65 + 82 * 2 ^ 8 + 32 * 2 ^ 16 + 32 * 2 ^ 24, 0, true⟩
      ∈ (main (env_ok abi_x86_64) sample_format).2 ∧
    (∀ s, last_arg 'f' sample_format = some s →
      s.length < 2 ^ 31 ∧ (∀ b ∈ s, b < 256) ∧
        ((env_ok abi_x86_64).abi.char_signed = false ∨ ∀ b ∈ s.take 3, b < 128)) ∧
    (65 + 82 * 2 ^ 8 + 32 * 2 ^ 16 + 32 * 2 ^ 24 : Nat)
      = match last_arg 'f' sample_format with
        | none => 88 + 82 * 2 ^ 8 + 50 * 2 ^ 16 + 52 * 2 ^ 24
        | some s =>
          s.getD 0 32 + s.getD 1 32 * 2 ^ 8 + s.getD 2 32 * 2 ^ 16 + s.getD 3 32 * 2 ^ 24 :=
  have hp : ∀ r ∈ sample_format, accepted r = true := by decide
  have ha : Call.init_gbm ⟨3, 1920, 1080, 65 + 82 * 2 ^ 8 + 32 * 2 ^ 16 + 32 * 2 ^ 24, 0, true⟩
      ∈ (main (env_ok abi_x86_64) sample_format).2 :=
    List.mem_cons_of_mem _ (List.mem_cons_self _ _)
  have hs : ∀ s, last_arg 'f' sample_format = some s →
      s.length < 2 ^ 31 ∧ (∀ b ∈ s, b < 256) ∧
        ((env_ok abi_x86_64).abi.char_signed = false ∨ ∀ b ∈ s.take 3, b < 128) := by
    intro s h
    have e : last_arg 'f' sample_format = some (cstr "AR") := by decide
    rw [e] at h
    cases h
    exact ⟨by decide, by decide, Or.inr (by decide)⟩
  ⟨hp, ha, hs, format_handed_to_gbm (env_ok abi_x86_64) sample_format hp _ ha hs⟩

/-! ## A rejected pixel format (C7) -/

/-- C6 at `--shadertoy`: the usage text documents `-S, --shadertoy=FILE`, and
it is the one documented option without an entry in `longopts`, where no
entry is named `shadertoy` at all; every documented letter is in `shortopts`
with the documented argument requirement and has a `case`. So `-S FILE`
selects the shadertoy backend, while for `--shadertoy=FILE`
`getopt_long_only` has nothing to return but `?`, on which `main` returns -1
without any call. -/
theorem shadertoy_long_option_missing :
    usage_options.filter (fun o => decide (o ∉ longopts))
      = [⟨"shadertoy", .required_argument, 'S'⟩] ∧
    (∀ o ∈ longopts, o.name ≠ "shadertoy") ∧
    (∀ o ∈ usage_options,
      shortopt_arg o.val shortopts.toList = some o.has_arg ∧ o.val ∈ handled_letters) ∧
    (main (env_ok abi_x86_64) [⟨'S', cstr "x.frag"⟩]).2.filter
        (fun c => c.stage == some Stage.egl_init)
      = [Call.init_cube_shadertoy ⟨1⟩ (some (cstr "x.frag")) 0] ∧
    main (env_ok abi_x86_64) [⟨'?', []⟩] = (-1, []) :=
  ⟨by decide, by decide, by decide, rfl, rfl⟩

end Kmscube
